import Mathlib

/-!
Verification development for the bustub storage subsystem found in this
repository: the CLOCK replacer (src/buffer/clock_replacer.cpp), the buffer
pool manager (src/buffer/buffer_pool_manager.cpp), the page guards
(src/storage/page/page_guard.cpp), the B+tree leaf and internal node pages
(src/storage/page/b_plus_tree_leaf_page.cpp,
src/page/b_plus_tree_internal_page.cpp) and the tree-level operations
(index_iterator.cpp / b_plus_tree implementation).

Keys and record values are modelled as natural numbers: GenericComparator
compares keys as integers, and every claim below only depends on the order
structure.  Page ids are modelled as Int so that INVALID_PAGE_ID = -1 keeps
its sentinel value.  C++ arrays are modelled as Lean lists indexed with
List.getD; each node structure keeps the *physical* array (the bytes of the
page, including slots beyond the current size) next to the current size,
exactly as the C++ page does, because several functions of the source read
the slot at index GetSize().
-/

namespace Bustub

/-- INVALID_PAGE_ID from common/config.h. -/
def INVALID_PAGE_ID : Int := -1

/-! ### B+tree leaf page (src/storage/page/b_plus_tree_leaf_page.cpp)

A leaf stores an array of (key, rid) pairs together with the current size.
The physical array can be longer than the size: slots past the size hold
stale or zeroed bytes, and the source sometimes reads them (KeyAt(GetSize())
in Insert). -/

structure BPlusTreeLeafPage where
  array : List (Nat × Nat)
  size : Nat
deriving DecidableEq, Repr

namespace BPlusTreeLeafPage

/-- KeyAt(index): reads the physical array (b_plus_tree_leaf_page.cpp line 92).
Out-of-capacity reads return the zeroed key, matching a freshly reset page. -/
def keyAt (L : BPlusTreeLeafPage) (index : Nat) : Nat :=
  (L.array.getD index (0, 0)).1

/-- The live keys of the leaf: the first size entries of the array. -/
def liveKeys (L : BPlusTreeLeafPage) : List Nat :=
  (L.array.take L.size).map Prod.fst

/-- The binary-search loop of KeyIndex (b_plus_tree_leaf_page.cpp lines
99-108).  The source iterates int variables left and right with
left = 0, right = GetSize() - 1; here rp1 denotes right + 1 (so right may be
-1 exactly when rp1 = 0 and all arithmetic stays in Nat).  The loop guard
left <= right is left < rp1; the source's mid = left + ((right - left) >> 1)
is left + (rp1 - 1 - left) / 2; comparator(KeyAt(mid), key) >= 0 is
key <= keys[mid], upon which right = mid - 1 (rp1 = mid), else
left = mid + 1.  The source returns right + 1, i.e. rp1.  Each iteration
strictly shrinks rp1 - left, so the loop runs at most rp1 - left times;
fuel is an upper bound on that count (the fuel-exhausted base case returns
the exit value rp1 and is never reached when rp1 - left <= fuel). -/
def keyIndexGo (keys : List Nat) (key : Nat) (fuel left rp1 : Nat) : Nat :=
  match fuel with
  | 0 => rp1
  | fuel + 1 =>
    if left < rp1 then
      let mid := left + (rp1 - 1 - left) / 2
      if key ≤ keys.getD mid 0 then keyIndexGo keys key fuel left mid
      else keyIndexGo keys key fuel (mid + 1) rp1
    else rp1

/-- KeyIndex(key) (b_plus_tree_leaf_page.cpp lines 98-111): the loop runs
from left = 0, right = size - 1; size steps of fuel suffice. -/
def keyIndex (L : BPlusTreeLeafPage) (key : Nat) : Nat :=
  keyIndexGo (L.array.map Prod.fst) key L.size 0 L.size

/-- The live keys are strictly increasing (spec invariant for leaves). -/
def sortedKeys (L : BPlusTreeLeafPage) : Prop :=
  ∀ j, j < L.size → ∀ i, i < j → L.keyAt i < L.keyAt j

instance (L : BPlusTreeLeafPage) : Decidable (sortedKeys L) := by
  unfold sortedKeys; infer_instance

end BPlusTreeLeafPage

/-- Correctness of the binary-search loop shared by the leaf KeyIndex.
Invariants: every index below left holds a key < key, every live index at or
above rp1 holds a key >= key; the keys below size are strictly increasing.
The result r then satisfies left <= r <= rp1, every index below r holds a
key < key and every live index at or above r holds a key >= key. -/
theorem keyIndexGo_spec (keys : List Nat) (key : Nat) (size : Nat)
    (hmono : ∀ i j, i < j → j < size → keys.getD i 0 < keys.getD j 0) :
    ∀ fuel left rp1, rp1 - left ≤ fuel → left ≤ rp1 → rp1 ≤ size →
    (∀ j, j < left → keys.getD j 0 < key) →
    (∀ j, rp1 ≤ j → j < size → key ≤ keys.getD j 0) →
    left ≤ BPlusTreeLeafPage.keyIndexGo keys key fuel left rp1 ∧
    BPlusTreeLeafPage.keyIndexGo keys key fuel left rp1 ≤ rp1 ∧
    (∀ j, j < BPlusTreeLeafPage.keyIndexGo keys key fuel left rp1 →
      keys.getD j 0 < key) ∧
    (∀ j, BPlusTreeLeafPage.keyIndexGo keys key fuel left rp1 ≤ j →
      j < size → key ≤ keys.getD j 0) := by
  intro fuel
  induction fuel with
  | zero =>
    intro left rp1 hfuel hlr hrs hlo hhi
    have hle : rp1 = left := by omega
    simp only [BPlusTreeLeafPage.keyIndexGo]
    exact ⟨by omega, le_refl _, fun j hj => hlo j (hle ▸ hj),
      fun j hj hjs => hhi j hj hjs⟩
  | succ n ih =>
    intro left rp1 hfuel hlr hrs hlo hhi
    simp only [BPlusTreeLeafPage.keyIndexGo]
    by_cases hguard : left < rp1
    · simp only [hguard, if_true]
      have hmid_lo : left ≤ left + (rp1 - 1 - left) / 2 := Nat.le_add_right _ _
      have hmid_hi : left + (rp1 - 1 - left) / 2 < rp1 := by
        have : (rp1 - 1 - left) / 2 ≤ rp1 - 1 - left := Nat.div_le_self _ _
        omega
      set mid := left + (rp1 - 1 - left) / 2 with hmid
      by_cases hcmp : key ≤ keys.getD mid 0
      · simp only [hcmp, if_true]
        have := ih left mid (by omega) (by omega) (by omega) hlo
          (fun j hj hjs => by
            rcases Nat.eq_or_lt_of_le hj with h | h
            · exact h ▸ hcmp
            · exact le_trans hcmp (le_of_lt (hmono mid j h hjs)))
        exact ⟨this.1, le_trans this.2.1 (by omega),
          this.2.2.1, this.2.2.2⟩
      · simp only [hcmp, if_false]
        have hmidkey : keys.getD mid 0 < key := by omega
        have := ih (mid + 1) rp1 (by omega) (by omega) hrs
          (fun j hj => by
            rcases Nat.lt_or_ge j left with h | h
            · exact hlo j h
            · rcases Nat.eq_or_lt_of_le (Nat.lt_succ_iff.mp hj) with h2 | h2
              · exact h2 ▸ hmidkey
              · exact lt_trans (hmono j mid h2 (by omega)) hmidkey)
          hhi
        exact ⟨by omega, this.2.1, this.2.2.1, this.2.2.2⟩
    · simp only [hguard, if_false]
      have hle : rp1 = left := by omega
      exact ⟨by omega, le_refl _, fun j hj => hlo j (by omega),
        fun j hj hjs => hhi j hj hjs⟩

/-! ### B+tree internal page (src/page/b_plus_tree_internal_page.cpp)

An internal node stores size entries of (key, child page id); the key at
index 0 is the unused slot. -/

structure BPlusTreeInternalPage where
  array : List (Nat × Int)
  size : Nat
deriving DecidableEq, Repr

namespace BPlusTreeInternalPage

/-- KeyAt(index) (b_plus_tree_internal_page.cpp line 41). -/
def keyAt (N : BPlusTreeInternalPage) (index : Nat) : Nat :=
  (N.array.getD index (0, 0)).1

/-- ValueAt(index) (b_plus_tree_internal_page.cpp line 64). -/
def valueAt (N : BPlusTreeInternalPage) (index : Nat) : Int :=
  (N.array.getD index (0, 0)).2

/-- SetKeyAt(index, key) (b_plus_tree_internal_page.cpp line 47): writes
array_[index].first, leaving the value component in place. -/
def setKeyAt (N : BPlusTreeInternalPage) (index : Nat) (key : Nat) :
    BPlusTreeInternalPage :=
  { N with array := N.array.set index (key, N.valueAt index) }

/-- The binary-search loop of Lookup (b_plus_tree_internal_page.cpp lines
68-77).  The source iterates int left = 1, right = GetSize() - 1; rp1
denotes right + 1.  comparator(KeyAt(mid), key) > 0 is key < keys[mid],
upon which right = mid - 1 (rp1 = mid), else left = mid + 1.  After the
loop the source sets target_index = left, so the exit value is left.  As
in keyIndexGo, fuel bounds the iteration count rp1 - left; the
fuel-exhausted base case returns the exit value left and is never reached
when rp1 - left <= fuel. -/
def lookupGo (keys : List Nat) (key : Nat) (fuel left rp1 : Nat) : Nat :=
  match fuel with
  | 0 => left
  | fuel + 1 =>
    if left < rp1 then
      let mid := left + (rp1 - 1 - left) / 2
      if key < keys.getD mid 0 then lookupGo keys key fuel left mid
      else lookupGo keys key fuel (mid + 1) rp1
    else left

/-- The index target_index computed by Lookup before the final ValueAt:
the loop runs from left = 1, right = size - 1; size steps of fuel
suffice. -/
def childIndex (N : BPlusTreeInternalPage) (key : Nat) : Nat :=
  lookupGo (N.array.map Prod.fst) key N.size 1 N.size

/-- Lookup(key) (b_plus_tree_internal_page.cpp lines 67-81): binary search,
then ValueAt(target_index - 1). -/
def lookup (N : BPlusTreeInternalPage) (key : Nat) : Int :=
  N.valueAt (N.childIndex key - 1)

/-- The keys at indices 1..size-1 are strictly increasing (the spec's key
layout rule for internal nodes; index 0 is the don't-care slot). -/
def sortedKeysTail (N : BPlusTreeInternalPage) : Prop :=
  ∀ j, j < N.size → ∀ i, i < j → 1 ≤ i → N.keyAt i < N.keyAt j

instance (N : BPlusTreeInternalPage) : Decidable (sortedKeysTail N) := by
  unfold sortedKeysTail; infer_instance

end BPlusTreeInternalPage

/-- Correctness of the internal-page binary-search loop: with keys strictly
increasing on indices 1..size-1 and the usual loop invariants, the exit
value r satisfies left <= r <= rp1, every index in [1, r) holds a key <= key
and every index in [r, size) holds a key > key. -/
theorem lookupGo_spec (keys : List Nat) (key : Nat) (size : Nat)
    (hmono : ∀ i j, 1 ≤ i → i < j → j < size →
      keys.getD i 0 < keys.getD j 0) :
    ∀ fuel left rp1, rp1 - left ≤ fuel → 1 ≤ left → left ≤ rp1 →
    rp1 ≤ size →
    (∀ j, 1 ≤ j → j < left → keys.getD j 0 ≤ key) →
    (∀ j, rp1 ≤ j → j < size → key < keys.getD j 0) →
    left ≤ BPlusTreeInternalPage.lookupGo keys key fuel left rp1 ∧
    BPlusTreeInternalPage.lookupGo keys key fuel left rp1 ≤ rp1 ∧
    (∀ j, 1 ≤ j →
      j < BPlusTreeInternalPage.lookupGo keys key fuel left rp1 →
      keys.getD j 0 ≤ key) ∧
    (∀ j, BPlusTreeInternalPage.lookupGo keys key fuel left rp1 ≤ j →
      j < size → key < keys.getD j 0) := by
  intro fuel
  induction fuel with
  | zero =>
    intro left rp1 hfuel h1 hlr hrs hlo hhi
    have hle : rp1 = left := by omega
    simp only [BPlusTreeInternalPage.lookupGo]
    exact ⟨le_refl _, by omega, fun j hj1 hj => hlo j hj1 hj,
      fun j hj hjs => hhi j (by omega) hjs⟩
  | succ n ih =>
    intro left rp1 hfuel h1 hlr hrs hlo hhi
    simp only [BPlusTreeInternalPage.lookupGo]
    by_cases hguard : left < rp1
    · simp only [hguard, if_true]
      have hmid_lo : left ≤ left + (rp1 - 1 - left) / 2 := Nat.le_add_right _ _
      have hmid_hi : left + (rp1 - 1 - left) / 2 < rp1 := by
        have : (rp1 - 1 - left) / 2 ≤ rp1 - 1 - left := Nat.div_le_self _ _
        omega
      set mid := left + (rp1 - 1 - left) / 2 with hmid
      by_cases hcmp : key < keys.getD mid 0
      · simp only [hcmp, if_true]
        have := ih left mid (by omega) h1 (by omega) (by omega) hlo
          (fun j hj hjs => by
            rcases Nat.eq_or_lt_of_le hj with h | h
            · exact h ▸ hcmp
            · exact lt_trans hcmp (hmono mid j (by omega) h hjs))
        exact ⟨this.1, le_trans this.2.1 (by omega),
          this.2.2.1, this.2.2.2⟩
      · simp only [hcmp, if_false]
        have hmidkey : keys.getD mid 0 ≤ key := by omega
        have := ih (mid + 1) rp1 (by omega) (by omega) (by omega) hrs
          (fun j hj1 hj => by
            rcases Nat.lt_or_ge j left with h | h
            · exact hlo j hj1 h
            · rcases Nat.eq_or_lt_of_le (Nat.lt_succ_iff.mp hj) with h2 | h2
              · exact h2 ▸ hmidkey
              · exact le_trans (le_of_lt (hmono j mid hj1 h2 (by omega)))
                  hmidkey)
          hhi
        exact ⟨by omega, this.2.1, this.2.2.1, this.2.2.2⟩
    · simp only [hguard, if_false]
      exact ⟨le_refl _, by omega, fun j hj1 hj => hlo j hj1 hj,
        fun j hj hjs => hhi j (by omega) hjs⟩

/-- The internal-page binary-search loop never reads an index below left:
two key arrays that agree from index 1 on give the same result when the
scan starts at left >= 1. -/
theorem lookupGo_agree (key : Nat) :
    ∀ fuel (keys keys' : List Nat) left rp1, 1 ≤ left →
    (∀ j, 1 ≤ j → keys.getD j 0 = keys'.getD j 0) →
    BPlusTreeInternalPage.lookupGo keys key fuel left rp1 =
      BPlusTreeInternalPage.lookupGo keys' key fuel left rp1 := by
  intro fuel
  induction fuel with
  | zero =>
    intro keys keys' left rp1 h1 hagree
    simp only [BPlusTreeInternalPage.lookupGo]
  | succ n ih =>
    intro keys keys' left rp1 h1 hagree
    simp only [BPlusTreeInternalPage.lookupGo]
    by_cases hguard : left < rp1
    · simp only [hguard, if_true]
      have hmid_hi : left + (rp1 - 1 - left) / 2 < rp1 := by
        have : (rp1 - 1 - left) / 2 ≤ rp1 - 1 - left := Nat.div_le_self _ _
        omega
      set mid := left + (rp1 - 1 - left) / 2 with hmid
      rw [hagree mid (by omega)]
      by_cases hcmp : key < keys'.getD mid 0
      · simp only [hcmp, if_true]
        exact ih keys keys' left mid h1 hagree
      · simp only [hcmp, if_false]
        exact ih keys keys' (mid + 1) rp1 (by omega) hagree
    · simp only [hguard, if_false]

namespace BPlusTreeLeafPage

/-- Insert(key, value) (b_plus_tree_leaf_page.cpp lines 38-52).  The source
computes insert_index = KeyIndex(key); if comparator(KeyAt(insert_index),
key) == 0 it returns GetSize() unchanged — note that it reads the physical
slot KeyAt(insert_index) even when insert_index == GetSize().  Otherwise the
loop for i = GetSize() down to insert_index + 1 sets a[i] = a[i-1], writes
(key, value) at insert_index, increments the size and returns it.  The
resulting physical array keeps indices below insert_index, holds the new
pair at insert_index, the old entries insert_index..size-1 shifted up by
one, and (beyond index size) the untouched tail. -/
def insert (L : BPlusTreeLeafPage) (key value : Nat) :
    BPlusTreeLeafPage × Nat :=
  let insertIndex := L.keyIndex key
  if L.keyAt insertIndex = key then (L, L.size)
  else
    let arr := L.array.take insertIndex ++ [(key, value)] ++
      ((L.array.drop insertIndex).take (L.size - insertIndex)) ++
      L.array.drop (L.size + 1)
    ({ array := arr, size := L.size + 1 }, L.size + 1)

/-- Lookup(key, *value) (b_plus_tree_leaf_page.cpp lines 55-63): true with
the stored value iff the slot at KeyIndex(key) is a live exact match; the
out parameter and boolean result are modelled as an Option. -/
def lookup (L : BPlusTreeLeafPage) (key : Nat) : Option Nat :=
  let targetIndex := L.keyIndex key
  if targetIndex = L.size ∨ L.keyAt targetIndex ≠ key then none
  else some (L.array.getD targetIndex (0, 0)).2

/-- RemoveAndDeleteRecord(key) (b_plus_tree_leaf_page.cpp lines 66-76).
On an exact live match the source decrements the size and shifts
a[target+1..] down by one (the stale copy of the last live entry remains at
the old index size-1); in both branches it executes return GetSize() even
though the function is declared to return bool, so the C++ caller receives
the truth value of (resulting size != 0), which the Bool component models. -/
def removeAndDeleteRecord (L : BPlusTreeLeafPage) (key : Nat) :
    BPlusTreeLeafPage × Bool :=
  let targetIndex := L.keyIndex key
  if targetIndex = L.size ∨ L.keyAt targetIndex ≠ key then
    (L, decide (L.size ≠ 0))
  else
    let newSize := L.size - 1
    let arr := L.array.take targetIndex ++
      ((L.array.drop (targetIndex + 1)).take (newSize - targetIndex)) ++
      L.array.drop newSize
    ({ array := arr, size := newSize }, decide (newSize ≠ 0))

end BPlusTreeLeafPage

/-! ### CLOCK replacer (src/buffer/clock_replacer.cpp)

State: the array of reference bits ref_flag_ (num_pages_ is its length) and
the rotating pointer_. -/

structure ClockReplacer where
  refFlag : List Bool
  pointer : Nat
deriving DecidableEq, Repr

namespace ClockReplacer

/-- NextSlot(slot) (clock_replacer.cpp line 74). -/
def nextSlot (numPages slot : Nat) : Nat := (slot + 1) % numPages

/-- The scan loop inside Victim (clock_replacer.cpp lines 33-44): current
starts at pointer_ and the loop runs at most num_pages_ iterations; a slot
whose bit is clear is skipped (current = NextSlot(current)); the first slot
whose bit is set is the victim. -/
def victimGo (bits : List Bool) (numPages cur : Nat) : Nat → Option Nat
  | 0 => none
  | fuel + 1 =>
    if bits.getD cur false then some cur
    else victimGo bits numPages (nextSlot numPages cur) fuel

/-- Victim(*frame_id) (clock_replacer.cpp lines 31-47): on success the
victim's bit is cleared and pointer_ becomes NextSlot(victim); on failure
the state is unchanged and the result is none. -/
def victim (r : ClockReplacer) : Option Nat × ClockReplacer :=
  match victimGo r.refFlag r.refFlag.length r.pointer r.refFlag.length with
  | none => (none, r)
  | some f =>
    (some f, { refFlag := r.refFlag.set f false,
               pointer := nextSlot r.refFlag.length f })

/-- Pin(frame_id) (clock_replacer.cpp lines 49-54): pointer_ =
NextSlot(frame_id) and the frame's bit is cleared. -/
def pin (r : ClockReplacer) (frameId : Nat) : ClockReplacer :=
  { refFlag := r.refFlag.set frameId false,
    pointer := nextSlot r.refFlag.length frameId }

/-- Unpin(frame_id) (clock_replacer.cpp lines 56-60): sets the frame's bit. -/
def unpin (r : ClockReplacer) (frameId : Nat) : ClockReplacer :=
  { r with refFlag := r.refFlag.set frameId true }

/-- Size() (clock_replacer.cpp lines 62-72): the number of set bits. -/
def size (r : ClockReplacer) : Nat := r.refFlag.count true

end ClockReplacer

/-! ### Classical CLOCK / second-chance, modelled from the spec (for
comparison with the source's Victim).

Modelled from the spec: claim C1 and spec section 4.B describe the required
Victim as classical second-chance — examine the slot at the pointer; a set
bit is cleared and the hand advances; a clear bit on a valid candidate (a
slot that has been Unpinned since construction) is returned, advancing past
it; the scan runs up to 2 * num_frames steps and yields none if no
candidate exists.  The cands array records which slots have ever been
Unpinned. -/

structure SpecClockReplacer where
  bits : List Bool
  cands : List Bool
  pointer : Nat
deriving DecidableEq, Repr

namespace SpecClockReplacer

/-- Modelled from the spec: one second-chance scan; returns the result and
the final bits and pointer. -/
def specVictimGo (bits : List Bool) (cands : List Bool) (numPages cur : Nat) :
    Nat → Option Nat × List Bool × Nat
  | 0 => (none, bits, cur)
  | fuel + 1 =>
    if bits.getD cur false then
      specVictimGo (bits.set cur false) cands numPages
        (ClockReplacer.nextSlot numPages cur) fuel
    else if cands.getD cur false then
      (some cur, bits, ClockReplacer.nextSlot numPages cur)
    else
      specVictimGo bits cands numPages (ClockReplacer.nextSlot numPages cur)
        fuel

/-- Modelled from the spec: Victim of the classical CLOCK policy. -/
def specVictim (r : SpecClockReplacer) : Option Nat × SpecClockReplacer :=
  let out := specVictimGo r.bits r.cands r.bits.length r.pointer
    (2 * r.bits.length)
  (out.1, { bits := out.2.1, cands := r.cands, pointer := out.2.2 })

/-- Modelled from the spec: Unpin sets the reference bit and makes the slot
a candidate. -/
def specUnpin (r : SpecClockReplacer) (frameId : Nat) : SpecClockReplacer :=
  { bits := r.bits.set frameId true, cands := r.cands.set frameId true,
    pointer := r.pointer }

end SpecClockReplacer

/-! ### Buffer pool manager (src/buffer/buffer_pool_manager.cpp)

A Page is a frame: page_id_, pin_count_, is_dirty_ and data_ (the page
bytes, abstracted to one number).  The pool state holds the frame array
pages_, the page_table_, the free_list_, the CLOCK replacer, the monotonic
next_page_id_ allocator, and the disk, modelled as the log of
disk_manager_->WritePage calls. -/

structure Page where
  pageId : Int
  pinCount : Nat
  isDirty : Bool
  data : Nat
deriving DecidableEq, Repr

/-- A frame as built by the Page constructor: non-resident, unpinned,
clean, zeroed. -/
def freshFrame : Page :=
  { pageId := INVALID_PAGE_ID, pinCount := 0, isDirty := false, data := 0 }

structure BufferPoolManager where
  pages : List Page
  pageTable : List (Int × Nat)
  freeList : List Nat
  replacer : ClockReplacer
  nextPageId : Int
  disk : List (Int × Nat)
deriving DecidableEq, Repr

namespace BufferPoolManager

/-- page_table_.find(page_id): the frame index mapped to a page id. -/
def lookupTable (t : List (Int × Nat)) (pid : Int) : Option Nat :=
  (t.find? (fun e => e.1 == pid)).map Prod.snd

/-- page_table_.erase(page_id). -/
def eraseTable (t : List (Int × Nat)) (pid : Int) : List (Int × Nat) :=
  t.filter (fun e => !(e.1 == pid))

/-- pages_[frame_id]. -/
def getPage (s : BufferPoolManager) (frameId : Nat) : Page :=
  s.pages.getD frameId freshFrame

/-- UpdatePage(page, new_page_id, new_frame_id) (buffer_pool_manager.cpp
lines 43-56): writes the frame back iff dirty (clearing the dirty flag),
erases the page table entry for the frame's current page id, installs the
new mapping unless the new id is INVALID_PAGE_ID, resets the memory and
assigns the new page id.  The frame's pin count is untouched. -/
def updatePage (s : BufferPoolManager) (frameId : Nat) (newPageId : Int) :
    BufferPoolManager :=
  let p := s.getPage frameId
  let disk1 := if p.isDirty then s.disk ++ [(p.pageId, p.data)] else s.disk
  let t1 := eraseTable s.pageTable p.pageId
  let t2 := if newPageId ≠ INVALID_PAGE_ID then t1 ++ [(newPageId, frameId)]
    else t1
  { s with
    disk := disk1, pageTable := t2,
    pages := s.pages.set frameId
      { p with isDirty := false, data := 0, pageId := newPageId } }

/-- UnpinPage(page_id, is_dirty) (buffer_pool_manager.cpp lines 95-117). -/
def unpinPage (s : BufferPoolManager) (pid : Int) (isDirty : Bool) :
    BufferPoolManager × Bool :=
  match lookupTable s.pageTable pid with
  | none => (s, false)
  | some frameId =>
    let p := s.getPage frameId
    if p.pinCount = 0 then (s, false)
    else
      let p1 := { p with pinCount := p.pinCount - 1 }
      let replacer1 := if p1.pinCount = 0 then s.replacer.unpin frameId
        else s.replacer
      let p2 := if isDirty then { p1 with isDirty := true } else p1
      ({ s with pages := s.pages.set frameId p2, replacer := replacer1 },
       true)

/-- DeletePage(page_id) (buffer_pool_manager.cpp lines 146-161). -/
def deletePage (s : BufferPoolManager) (pid : Int) :
    BufferPoolManager × Bool :=
  match lookupTable s.pageTable pid with
  | none => (s, true)
  | some frameId =>
    let p := s.getPage frameId
    if 0 < p.pinCount then (s, false)
    else
      let s1 := s.updatePage frameId INVALID_PAGE_ID
      ({ s1 with freeList := s1.freeList ++ [frameId] }, true)

end BufferPoolManager

/-! ### Page guards (src/storage/page/page_guard.cpp)

A BasicPageGuard holds bpm_ (modelled by whether the pointer is non-null),
page_ (modelled by the page id it points at, or none for nullptr) and
is_dirty_.  page_guard.h default-initializes the members to nullptr /
false, so the Drop() at the start of the move constructor acts on an empty
guard. -/

structure BasicPageGuard where
  bpmValid : Bool
  page : Option Int
  isDirty : Bool
deriving DecidableEq, Repr

namespace BasicPageGuard

/-- A default-constructed guard (the default member initializers of
page_guard.h). -/
def defaultGuard : BasicPageGuard :=
  { bpmValid := false, page := none, isDirty := false }

/-- Drop() (page_guard.cpp lines 18-25): no-op when bpm_ or page_ is null;
otherwise one bpm_->UnpinPage(page_->GetPageId(), is_dirty_) call, after
which bpm_ and page_ are nulled.  Returns the list of UnpinPage calls
performed and the guard afterwards. -/
def drop (g : BasicPageGuard) : List (Int × Bool) × BasicPageGuard :=
  match g.page, g.bpmValid with
  | some pid, true =>
    ([(pid, g.isDirty)], { g with bpmValid := false, page := none })
  | _, _ => ([], g)

/-- BasicPageGuard(BasicPageGuard&&) (page_guard.cpp lines 7-16): Drop() on
the freshly default-initialized target (a no-op), copy bpm_, page_,
is_dirty_ from that; then the source's bpm_ is nulled (twice — the line
that was meant to null page_ assigns bpm_ again) and its is_dirty_ is
cleared, while that.page_ keeps its value.  Returns (new guard, source
afterwards). -/
def moveCtor (that : BasicPageGuard) : BasicPageGuard × BasicPageGuard :=
  ({ bpmValid := that.bpmValid, page := that.page, isDirty := that.isDirty },
   { bpmValid := false, page := that.page, isDirty := false })

/-- operator=(BasicPageGuard&&) (page_guard.cpp lines 27-33): Drop() on the
target, then copy bpm_, page_, is_dirty_ from that.  No field of that is
modified.  Returns (UnpinPage calls of the Drop, new target, source
afterwards). -/
def moveAssign (tgt that : BasicPageGuard) :
    List (Int × Bool) × BasicPageGuard × BasicPageGuard :=
  ((tgt.drop).1,
   { bpmValid := that.bpmValid, page := that.page, isDirty := that.isDirty },
   that)

end BasicPageGuard

/-! ### B+tree over a page store (index_iterator.cpp, tree half)

The tree state is the set of resident node pages, the header page's
root_page_id_ and the next_page_id_ allocator.  Modelled from the spec:
FetchPageBasic/FetchPageRead/FetchPageWrite/NewPageGuarded are stubs in the
source (buffer_pool_manager.cpp lines 165-171); per spec sections 4.C and 9
a faithful implementation wires them to FetchPage/NewPage, so fetching a
page yields the node stored under that id and NewPageGuarded allocates a
fresh id whose frame memory is reset to zero bytes. -/

inductive BPlusTreeNode where
  | leaf : BPlusTreeLeafPage → BPlusTreeNode
  | internal : BPlusTreeInternalPage → BPlusTreeNode
deriving DecidableEq, Repr

structure BPlusTree where
  pages : List (Int × BPlusTreeNode)
  rootPageId : Int
  nextPageId : Int
  leafMaxSize : Nat
deriving DecidableEq, Repr

namespace BPlusTree

/-- Modelled from the spec: FetchPage of a node page returns the resident
node for the id. -/
def fetchNode (t : BPlusTree) (pid : Int) : Option BPlusTreeNode :=
  (t.pages.find? (fun e => e.1 == pid)).map Prod.snd

/-- Stores a node page under an id (overwriting a resident page, else
installing a new one). -/
def storeNode (t : BPlusTree) (pid : Int) (n : BPlusTreeNode) : BPlusTree :=
  if (t.pages.find? (fun e => e.1 == pid)).isSome then
    { t with pages := t.pages.map (fun e => if e.1 == pid then (pid, n) else e) }
  else
    { t with pages := t.pages ++ [(pid, n)] }

/-- IsEmpty() (index_iterator.cpp lines 95-99): the header's root_page_id_
is INVALID_PAGE_ID. -/
def isEmpty (t : BPlusTree) : Bool := t.rootPageId == INVALID_PAGE_ID

/-- StartNewTree(key, value) (index_iterator.cpp lines 151-163): allocate a
fresh page (NewPageGuarded — modelled from the spec as a fresh id with
zeroed frame memory), write its id into the header's root_page_id_, Init
the leaf (size 0 on the zeroed frame, capacity leaf_max_size_) and call
Leaf.Insert(key, value) on it. -/
def startNewTree (t : BPlusTree) (key value : Nat) : BPlusTree :=
  let newPageId := t.nextPageId
  let t1 := { t with nextPageId := t.nextPageId + 1, rootPageId := newPageId }
  let freshLeaf : BPlusTreeLeafPage :=
    { array := List.replicate t.leafMaxSize (0, 0), size := 0 }
  let leafAfter := (freshLeaf.insert key value).1
  t1.storeNode newPageId (BPlusTreeNode.leaf leafAfter)

/-- BPlusTree::Insert (index_iterator.cpp lines 139-148), restricted to the
branch where IsEmpty() holds: the source calls StartNewTree(key, value) and
returns true unconditionally. -/
def insertOnEmptyTree (t : BPlusTree) (key value : Nat) : BPlusTree × Bool :=
  (t.startNewTree key value, true)

/-- The descent of FindLeafPageByOperation for a FIND with neither leftMost
nor rightMost (index_iterator.cpp lines 298-358): starting at the root,
an internal node routes through Lookup(key); the walk ends at a leaf.
Fuel bounds the walk; none models a descent that never reaches a leaf. -/
def findLeafGo (pages : List (Int × BPlusTreeNode)) (key : Nat) (pid : Int) :
    Nat → Option BPlusTreeLeafPage
  | 0 => none
  | fuel + 1 =>
    match (pages.find? (fun e => e.1 == pid)).map Prod.snd with
    | some (BPlusTreeNode.leaf L) => some L
    | some (BPlusTreeNode.internal N) =>
      findLeafGo pages key (N.lookup key) fuel
    | none => none

/-- The leaf reached by a FIND descent for key. -/
def findLeafPage (t : BPlusTree) (key : Nat) : Option BPlusTreeLeafPage :=
  findLeafGo t.pages key t.rootPageId (t.pages.length + 1)

/-- GetValue(key, *result) (index_iterator.cpp lines 109-126): descend to
the leaf, Leaf.Lookup(key); on a hit the value is pushed onto the result
vector and the call returns true. -/
def getValue (t : BPlusTree) (key : Nat) (result : List Nat) :
    Option (Bool × List Nat) :=
  match t.findLeafPage key with
  | none => none
  | some leafNode =>
    match leafNode.lookup key with
    | none => some (false, result)
    | some v => some (true, result ++ [v])

end BPlusTree

/-! ### List helper lemmas -/

theorem getD_set_self {α : Type} (l : List α) (i : Nat) (x d : α)
    (h : i < l.length) : (l.set i x).getD i d = x := by
  rw [List.getD_eq_getElem _ _ (by simpa using h)]
  simp [List.getElem_set_self]

theorem getD_set_ne {α : Type} (l : List α) (i j : Nat) (x d : α)
    (h : i ≠ j) : (l.set i x).getD j d = l.getD j d := by
  rcases Nat.lt_or_ge j l.length with hj | hj
  · rw [List.getD_eq_getElem _ _ (by simpa using hj),
      List.getD_eq_getElem _ _ hj]
    exact List.getElem_set_ne h _
  · rw [List.getD_eq_default _ _ (by simpa using hj),
      List.getD_eq_default _ _ hj]

theorem map_fst_getD_nn (l : List (Nat × Nat)) (i : Nat) :
    (l.map Prod.fst).getD i 0 = (l.getD i (0, 0)).1 := by
  simpa using List.getD_map l ((0 : Nat), (0 : Nat)) Prod.fst

theorem map_fst_getD_ni (l : List (Nat × Int)) (i : Nat) :
    (l.map Prod.fst).getD i 0 = (l.getD i (0, 0)).1 := by
  simpa using List.getD_map l ((0 : Nat), (0 : Int)) Prod.fst

/-! ### Claim C8 -/

/-- C8: for every leaf node whose keys are sorted strictly increasing,
KeyIndex(key) returns the smallest index i with keys[i] >= key, and returns
size when every stored key is strictly less than key: the result is at most
size, every index below it holds a key < key, and every live index at or
past it holds a key >= key. -/
theorem keyIndex_least_geq (L : BPlusTreeLeafPage) (key : Nat)
    (hsorted : L.sortedKeys) :
    L.keyIndex key ≤ L.size ∧
    (∀ j, j < L.keyIndex key → L.keyAt j < key) ∧
    (∀ j, L.keyIndex key ≤ j → j < L.size → key ≤ L.keyAt j) := by
  have hmono : ∀ i j, i < j → j < L.size →
      (L.array.map Prod.fst).getD i 0 < (L.array.map Prod.fst).getD j 0 := by
    intro i j hij hj
    rw [map_fst_getD_nn, map_fst_getD_nn]
    exact hsorted j hj i hij
  have h := keyIndexGo_spec (L.array.map Prod.fst) key L.size hmono L.size 0
    L.size (by omega) (Nat.zero_le _) (le_refl _)
    (fun j hj => absurd hj (Nat.not_lt_zero j))
    (fun j hj hjs => absurd hjs (by omega))
  unfold BPlusTreeLeafPage.keyIndex
  refine ⟨h.2.1, fun j hj => ?_, fun j hj hjs => ?_⟩
  · have := h.2.2.1 j hj
    rwa [map_fst_getD_nn] at this
  · have := h.2.2.2 j hj hjs
    rwa [map_fst_getD_nn] at this

/-- The concrete leaf [(1,0),(3,0),(5,0)] used by the C8 witness. -/
def c8Leaf : BPlusTreeLeafPage := ⟨[(1, 0), (3, 0), (5, 0)], 3⟩

/-- Witness for C8: the leaf [(1,0),(3,0),(5,0)] with key 4 satisfies the
sortedness hypothesis and the conclusion (KeyIndex returns 2). -/
theorem keyIndex_least_geq_witness :
    c8Leaf.sortedKeys ∧
    (c8Leaf.keyIndex 4 ≤ c8Leaf.size ∧
     (∀ j, j < c8Leaf.keyIndex 4 → c8Leaf.keyAt j < 4) ∧
     (∀ j, c8Leaf.keyIndex 4 ≤ j → j < c8Leaf.size → 4 ≤ c8Leaf.keyAt j)) :=
  ⟨by decide, keyIndex_least_geq c8Leaf 4 (by decide)⟩

/-! ### Claim C7 -/

/-- SetKeyAt(0, k0) does not change any value component. -/
theorem valueAt_setKeyAt_zero (N : BPlusTreeInternalPage) (k0 : Nat)
    (j : Nat) : (N.setKeyAt 0 k0).valueAt j = N.valueAt j := by
  unfold BPlusTreeInternalPage.setKeyAt BPlusTreeInternalPage.valueAt
  cases hN : N.array with
  | nil => simp
  | cons a t =>
    cases j with
    | zero => simp [BPlusTreeInternalPage.valueAt, hN]
    | succ n => simp

/-- C7: for every internal node with size >= 1 whose keys at indices
1..size-1 are sorted strictly increasing, Lookup(key) returns
values[i - 1] where i is the smallest index i > 0 with keys[i] > key
(i = size when no such index exists), and the key at index 0 is never
consulted (rewriting it does not change the result). -/
theorem internal_lookup_routes (N : BPlusTreeInternalPage) (key : Nat)
    (hsize : 1 ≤ N.size) (hsorted : N.sortedKeysTail) :
    (1 ≤ N.childIndex key ∧ N.childIndex key ≤ N.size ∧
     (∀ j, 1 ≤ j → j < N.childIndex key → N.keyAt j ≤ key) ∧
     (∀ j, N.childIndex key ≤ j → j < N.size → key < N.keyAt j)) ∧
    N.lookup key = N.valueAt (N.childIndex key - 1) ∧
    (∀ k0, (N.setKeyAt 0 k0).lookup key = N.lookup key) := by
  have hmono : ∀ i j, 1 ≤ i → i < j → j < N.size →
      (N.array.map Prod.fst).getD i 0 < (N.array.map Prod.fst).getD j 0 := by
    intro i j h1 hij hj
    rw [map_fst_getD_ni, map_fst_getD_ni]
    exact hsorted j hj i hij h1
  have h := lookupGo_spec (N.array.map Prod.fst) key N.size hmono N.size 1
    N.size (by omega) (le_refl _) hsize (le_refl _)
    (fun j h1 hj => absurd h1 (by omega))
    (fun j hj hjs => absurd hjs (by omega))
  have hagree : ∀ k0, (N.setKeyAt 0 k0).childIndex key = N.childIndex key := by
    intro k0
    unfold BPlusTreeInternalPage.childIndex BPlusTreeInternalPage.setKeyAt
    simp only
    exact lookupGo_agree key N.size _ _ 1 N.size (le_refl _)
      (fun j h1 => by
        rw [map_fst_getD_ni, map_fst_getD_ni,
          getD_set_ne _ 0 j _ _ (by omega)])
  refine ⟨⟨h.1, h.2.1, fun j h1 hj => ?_, fun j hj hjs => ?_⟩, rfl,
    fun k0 => ?_⟩
  · have := h.2.2.1 j h1 hj
    rwa [map_fst_getD_ni] at this
  · have := h.2.2.2 j hj hjs
    rwa [map_fst_getD_ni] at this
  · show (N.setKeyAt 0 k0).valueAt ((N.setKeyAt 0 k0).childIndex key - 1) =
      N.lookup key
    rw [hagree k0, valueAt_setKeyAt_zero]
    rfl

/-- The concrete internal node for the C7 witness: children 10, 11, 12
separated by keys 4 and 7 (the slot-0 key is the unused 0). -/
def c7Internal : BPlusTreeInternalPage := ⟨[(0, 10), (4, 11), (7, 12)], 3⟩

/-- Witness for C7: on the node above with key 6, the child index is 2 and
Lookup returns child 11. -/
theorem internal_lookup_routes_witness :
    (1 ≤ c7Internal.size ∧ c7Internal.sortedKeysTail) ∧
    ((1 ≤ c7Internal.childIndex 6 ∧
      c7Internal.childIndex 6 ≤ c7Internal.size ∧
      (∀ j, 1 ≤ j → j < c7Internal.childIndex 6 →
        c7Internal.keyAt j ≤ 6) ∧
      (∀ j, c7Internal.childIndex 6 ≤ j → j < c7Internal.size →
        6 < c7Internal.keyAt j)) ∧
     c7Internal.lookup 6 = c7Internal.valueAt (c7Internal.childIndex 6 - 1) ∧
     (∀ k0, (c7Internal.setKeyAt 0 k0).lookup 6 = c7Internal.lookup 6)) :=
  ⟨⟨by decide, by decide⟩,
   internal_lookup_routes c7Internal 6 (by decide) (by decide)⟩

/-! ### Claim C5 -/

/-- The contract claim C5 states for UnpinPage: failure (false, pool
unchanged) iff the id is unmapped or the mapped frame's pin count is 0;
otherwise the pin count is decremented, the replacer's Unpin runs exactly
when the count reaches 0, is_dirty is OR-ed into the dirty flag, every
other component of the pool is unchanged, and the result is true. -/
def unpinPageContract (s : BufferPoolManager) (pid : Int) (d : Bool) :
    Prop :=
  match BufferPoolManager.lookupTable s.pageTable pid with
  | none => s.unpinPage pid d = (s, false)
  | some f =>
    let p := s.getPage f
    if p.pinCount = 0 then s.unpinPage pid d = (s, false)
    else
      (s.unpinPage pid d).2 = true ∧
      (s.unpinPage pid d).1.getPage f =
        { p with pinCount := p.pinCount - 1, isDirty := p.isDirty || d } ∧
      (∀ g, g ≠ f → (s.unpinPage pid d).1.getPage g = s.getPage g) ∧
      (p.pinCount = 1 → (s.unpinPage pid d).1.replacer = s.replacer.unpin f) ∧
      (p.pinCount ≠ 1 → (s.unpinPage pid d).1.replacer = s.replacer) ∧
      (s.unpinPage pid d).1.pageTable = s.pageTable ∧
      (s.unpinPage pid d).1.freeList = s.freeList ∧
      (s.unpinPage pid d).1.nextPageId = s.nextPageId ∧
      (s.unpinPage pid d).1.disk = s.disk

/-- C5: UnpinPage satisfies the contract of the claim on every pool state,
page id and dirty hint. -/
theorem unpinPage_contract_holds (s : BufferPoolManager) (pid : Int)
    (d : Bool) : unpinPageContract s pid d := by
  unfold unpinPageContract
  cases hlt : BufferPoolManager.lookupTable s.pageTable pid with
  | none => simp [BufferPoolManager.unpinPage, hlt]
  | some f =>
    simp only
    by_cases hpin : (s.getPage f).pinCount = 0
    · simp [BufferPoolManager.unpinPage, hlt, hpin]
    · have hflen : f < s.pages.length := by
        by_contra hge
        have hfresh : s.getPage f = freshFrame := by
          unfold BufferPoolManager.getPage
          exact List.getD_eq_default _ _ (by omega)
        rw [hfresh] at hpin
        exact hpin rfl
      have hu : s.unpinPage pid d =
          ({ s with
             pages := s.pages.set f
               (if d then
                 { s.getPage f with
                   pinCount := (s.getPage f).pinCount - 1, isDirty := true }
                else
                 { s.getPage f with
                   pinCount := (s.getPage f).pinCount - 1 }),
             replacer := if (s.getPage f).pinCount - 1 = 0 then
                 s.replacer.unpin f
               else s.replacer }, true) := by
        unfold BufferPoolManager.unpinPage
        rw [hlt]
        simp [hpin]
      rw [if_neg hpin]
      refine ⟨by rw [hu], ?_, fun g hg => ?_, fun h1 => ?_, fun h1 => ?_,
        by rw [hu], by rw [hu], by rw [hu], by rw [hu]⟩
      · rw [hu]
        show (_ : BufferPoolManager).getPage f = _
        unfold BufferPoolManager.getPage
        simp only
        rw [getD_set_self _ _ _ _ hflen]
        cases d <;> simp
      · rw [hu]
        show (_ : BufferPoolManager).getPage g = _
        unfold BufferPoolManager.getPage
        simp only
        rw [getD_set_ne _ _ _ _ _ (fun h => hg h.symm)]
      · rw [hu]
        simp only
        rw [if_pos (by omega)]
      · rw [hu]
        simp only
        rw [if_neg (by omega)]

/-! ### Claim C6 -/

/-- Erasing a page id from the page table makes it unmapped. -/
theorem lookupTable_erase_self (t : List (Int × Nat)) (pid : Int) :
    BufferPoolManager.lookupTable (BufferPoolManager.eraseTable t pid) pid =
      none := by
  unfold BufferPoolManager.lookupTable BufferPoolManager.eraseTable
  simp only [Option.map_eq_none', List.find?_eq_none]
  intro x hx
  have := (List.mem_filter.mp hx).2
  simpa using this

/-- find? for one key skips a filter that only removes a different key. -/
theorem find?_filter_other (t : List (Int × Nat)) (pid q : Int)
    (h : q ≠ pid) :
    List.find? (fun e => e.1 == q) (t.filter (fun e => !(e.1 == pid))) =
      List.find? (fun e => e.1 == q) t := by
  induction t with
  | nil => rfl
  | cons a t ih =>
    rw [List.filter_cons]
    by_cases hap : a.1 = pid
    · have haq : (a.1 == q) = false := by
        rw [beq_eq_false_iff_ne]
        intro hh
        exact h (hh.symm.trans hap)
      rw [if_neg (by simp [hap])]
      rw [List.find?_cons_of_neg _ (by simp [haq])]
      exact ih
    · rw [if_pos (by simp [hap])]
      by_cases haq : a.1 = q
      · rw [List.find?_cons_of_pos _ (by simp [haq]),
          List.find?_cons_of_pos _ (by simp [haq])]
      · rw [List.find?_cons_of_neg _ (by simp [haq]),
          List.find?_cons_of_neg _ (by simp [haq])]
        exact ih

/-- Erasing a page id from the page table leaves every other id's mapping
unchanged. -/
theorem lookupTable_erase_ne (t : List (Int × Nat)) (pid q : Int)
    (h : q ≠ pid) :
    BufferPoolManager.lookupTable (BufferPoolManager.eraseTable t pid) q =
      BufferPoolManager.lookupTable t q := by
  unfold BufferPoolManager.lookupTable BufferPoolManager.eraseTable
  rw [find?_filter_other t pid q h]

/-- The pool invariant of spec section 3 for one page table entry: the
mapped frame index lies inside the frame array and that frame's page id
equals the mapped id. -/
def tableEntryWF (s : BufferPoolManager) (pid : Int) : Bool :=
  match BufferPoolManager.lookupTable s.pageTable pid with
  | none => true
  | some f => decide (f < s.pages.length) && ((s.getPage f).pageId == pid)

/-- The contract claim C6 states for DeletePage: true and unchanged when
the id is not resident; false and unchanged when the mapped frame is
pinned; otherwise the frame is written back iff dirty, the mapping is
removed (others kept), the frame is reset to a fresh frame (its page id
becomes INVALID_PAGE_ID), the frame index is appended to the free list,
and the result is true. -/
def deletePageContract (s : BufferPoolManager) (pid : Int) : Prop :=
  match BufferPoolManager.lookupTable s.pageTable pid with
  | none => s.deletePage pid = (s, true)
  | some f =>
    let p := s.getPage f
    if 0 < p.pinCount then s.deletePage pid = (s, false)
    else
      (s.deletePage pid).2 = true ∧
      (s.deletePage pid).1.disk =
        (if p.isDirty then s.disk ++ [(pid, p.data)] else s.disk) ∧
      BufferPoolManager.lookupTable (s.deletePage pid).1.pageTable pid =
        none ∧
      (∀ q, q ≠ pid →
        BufferPoolManager.lookupTable (s.deletePage pid).1.pageTable q =
          BufferPoolManager.lookupTable s.pageTable q) ∧
      (s.deletePage pid).1.getPage f = freshFrame ∧
      (∀ g, g ≠ f → (s.deletePage pid).1.getPage g = s.getPage g) ∧
      (s.deletePage pid).1.freeList = s.freeList ++ [f] ∧
      (s.deletePage pid).1.replacer = s.replacer ∧
      (s.deletePage pid).1.nextPageId = s.nextPageId

/-- C6: DeletePage satisfies the contract of the claim on every pool state
whose page table entry for the id satisfies the pool invariant. -/
theorem deletePage_contract_holds (s : BufferPoolManager) (pid : Int)
    (hwf : tableEntryWF s pid = true) : deletePageContract s pid := by
  unfold deletePageContract
  cases hlt : BufferPoolManager.lookupTable s.pageTable pid with
  | none => simp [BufferPoolManager.deletePage, hlt]
  | some f =>
    simp only
    unfold tableEntryWF at hwf
    rw [hlt] at hwf
    simp only [Bool.and_eq_true, decide_eq_true_eq, beq_iff_eq] at hwf
    obtain ⟨hflen, hpid⟩ := hwf
    by_cases hpin : 0 < (s.getPage f).pinCount
    · simp [BufferPoolManager.deletePage, hlt, hpin]
    · have hpin0 : (s.getPage f).pinCount = 0 := by omega
      have hd : s.deletePage pid =
          ({ s with
             disk := if (s.getPage f).isDirty then
                 s.disk ++ [((s.getPage f).pageId, (s.getPage f).data)]
               else s.disk,
             pageTable :=
               BufferPoolManager.eraseTable s.pageTable (s.getPage f).pageId,
             pages := s.pages.set f
               { pageId := INVALID_PAGE_ID,
                 pinCount := (s.getPage f).pinCount,
                 isDirty := false, data := 0 },
             freeList := s.freeList ++ [f] }, true) := by
        unfold BufferPoolManager.deletePage BufferPoolManager.updatePage
        rw [hlt]
        simp [hpin, INVALID_PAGE_ID]
      rw [if_neg hpin]
      refine ⟨by rw [hd], by rw [hd]; simp [hpid], ?_, fun q hq => ?_,
        ?_, fun g hg => ?_, by rw [hd], by rw [hd], by rw [hd]⟩
      · rw [hd]
        simp only
        rw [hpid]
        exact lookupTable_erase_self s.pageTable pid
      · rw [hd]
        simp only
        rw [hpid]
        exact lookupTable_erase_ne s.pageTable pid q hq
      · rw [hd]
        show (_ : BufferPoolManager).getPage f = _
        unfold BufferPoolManager.getPage
        simp only
        rw [getD_set_self _ _ _ _ hflen]
        have h0 : (s.pages.getD f freshFrame).pinCount = 0 := hpin0
        rw [h0]
        rfl
      · rw [hd]
        show (_ : BufferPoolManager).getPage g = _
        unfold BufferPoolManager.getPage
        simp only
        rw [getD_set_ne _ _ _ _ _ (fun h => hg h.symm)]

/-- The concrete pool for the C6 witness: one resident dirty unpinned page
4 in frame 0. -/
def c6Pool : BufferPoolManager :=
  ⟨[{ pageId := 4, pinCount := 0, isDirty := true, data := 5 }], [(4, 0)],
   [], ⟨[true], 0⟩, 5, []⟩

/-- Witness for C6: deleting page 4 from the pool above satisfies the
invariant hypothesis and the contract. -/
theorem deletePage_contract_holds_witness :
    tableEntryWF c6Pool 4 = true ∧ deletePageContract c6Pool 4 :=
  ⟨by decide, deletePage_contract_holds c6Pool 4 (by decide)⟩

/-! ### Claim C10 -/

/-- The frame effect claim C10 states for ClockReplacer::Pin: the frame's
reference bit is cleared, every other slot's bit is unchanged, the clock
hand moves to the slot immediately after the frame, and the next Victim
scan therefore starts there — in particular, if that slot's bit is set it
is the next victim. -/
def pinContract (r : ClockReplacer) (f : Nat) : Prop :=
  (r.pin f).refFlag.getD f false = false ∧
  (∀ g, g ≠ f → (r.pin f).refFlag.getD g false = r.refFlag.getD g false) ∧
  (r.pin f).pointer = ClockReplacer.nextSlot r.refFlag.length f ∧
  ((r.pin f).refFlag.getD (r.pin f).pointer false = true →
    (r.pin f).victim.1 = some (r.pin f).pointer)

/-- C10: Pin satisfies the contract above for every replacer state and
in-range frame id. -/
theorem pin_contract_holds (r : ClockReplacer) (f : Nat)
    (hf : f < r.refFlag.length) : pinContract r f := by
  unfold pinContract
  refine ⟨?_, fun g hg => ?_, rfl, fun hbit => ?_⟩
  · show (r.refFlag.set f false).getD f false = false
    rw [getD_set_self _ _ _ _ hf]
  · show (r.refFlag.set f false).getD g false = r.refFlag.getD g false
    rw [getD_set_ne _ _ _ _ _ (fun h => hg h.symm)]
  · unfold ClockReplacer.victim
    have hlen : (r.pin f).refFlag.length = r.refFlag.length :=
      List.length_set _ _ _
    obtain ⟨n, hn⟩ : ∃ n, (r.pin f).refFlag.length = n + 1 :=
      ⟨r.refFlag.length - 1, by omega⟩
    rw [hn]
    unfold ClockReplacer.victimGo
    rw [if_pos hbit]

/-- The concrete replacer for the C10 witness: three set bits, hand at 0. -/
def c10Clock : ClockReplacer := ⟨[true, true, true], 0⟩

/-- Witness for C10: pinning frame 0 clears its bit, moves the hand to
slot 1 and makes slot 1 the next victim. -/
theorem pin_contract_holds_witness :
    0 < c10Clock.refFlag.length ∧ pinContract c10Clock 0 :=
  ⟨by decide, pin_contract_holds c10Clock 0 (by decide)⟩

/-! ### Claim C1 -/

/-- C1: the source's Victim is not classical CLOCK/second-chance.  Running
the reachable sequence Unpin(0); Unpin(1); Victim; Victim; Victim on a
2-frame replacer: the source's Victim returns the slot whose bit is set
(clearing only that bit), so the first call returns frame 0 but leaves
slot 1's bit set, and the third call returns none; classical CLOCK as the
claim states it (clear set bits and advance; return a clear-bit candidate)
clears both bits during the first call and still yields frame 0 on the
third call.  The two policies agree on the first two results and diverge
both on the bit state after the first call and on the third result. -/
theorem victim_not_second_chance :
    let r : ClockReplacer :=
      ClockReplacer.unpin (ClockReplacer.unpin ⟨[false, false], 0⟩ 0) 1
    let s : SpecClockReplacer := SpecClockReplacer.specUnpin
      (SpecClockReplacer.specUnpin ⟨[false, false], [false, false], 0⟩ 0) 1
    r.victim.1 = some 0 ∧ s.specVictim.1 = some 0 ∧
    r.victim.2.refFlag = [false, true] ∧
    s.specVictim.2.bits = [false, false] ∧
    r.victim.2.victim.1 = some 1 ∧
    s.specVictim.2.specVictim.1 = some 1 ∧
    r.victim.2.victim.2.victim.1 = none ∧
    s.specVictim.2.specVictim.2.specVictim.1 = some 0 := by
  decide

/-! ### Claim C2 -/

/-- C2: the boolean result of RemoveAndDeleteRecord is not "a record was
removed" — the source returns GetSize() from a bool function, so the
caller sees "resulting size is nonzero".  On the leaf [(5,·)] removing key
5 deletes the record yet returns false, and on the leaf [(1,·),(2,·)]
removing the absent key 9 deletes nothing yet returns true. -/
theorem removeAndDeleteRecord_bool_is_size :
    (((⟨[(5, 0)], 1⟩ : BPlusTreeLeafPage).removeAndDeleteRecord 5).1.size
        = 0 ∧
     ((⟨[(5, 0)], 1⟩ : BPlusTreeLeafPage).removeAndDeleteRecord 5).2
        = false) ∧
    ((⟨[(1, 10), (2, 20)], 2⟩ : BPlusTreeLeafPage).removeAndDeleteRecord 9
        = (⟨[(1, 10), (2, 20)], 2⟩, true)) := by
  decide

/-! ### Claim C3 -/

/-- C3: move assignment of a BasicPageGuard does not empty the source.
Moving the guard that owns page 7 into a default guard leaves the source
bit-identical (still owning), so dropping it performs the same
UnpinPage(7, false) call as dropping the new owner — the unpin runs twice.
Move construction, in contrast, does leave a source whose drop is a no-op. -/
theorem moveAssign_leaves_source_owning :
    let g : BasicPageGuard := ⟨true, some 7, false⟩
    let out := BasicPageGuard.moveAssign BasicPageGuard.defaultGuard g
    out.2.2 = g ∧
    (out.2.2.drop).1 = [(7, false)] ∧
    (out.2.1.drop).1 = [(7, false)] ∧
    ((BasicPageGuard.moveCtor g).2.drop).1 = [] := by
  decide

/-! ### Claim C4 -/

/-- C4: leaf Insert misses the bounds check on its duplicate test.  On the
leaf built by inserting 1, 2, 3 and then removing 3, the live keys are
[1, 2] (sorted strictly increasing) but the physical slot at index size
still holds the stale key 3; Insert(3, 99) compares KeyAt(KeyIndex(3)) =
KeyAt(size) = 3 with the new key, wrongly reports a duplicate, and returns
the unchanged size 2 without storing anything — instead of shifting,
storing (3, 99) and returning 3 as the claim states. -/
theorem insert_misses_stale_slot :
    let L : BPlusTreeLeafPage := ⟨[(1, 10), (2, 20), (3, 30)], 3⟩
    let L2 := (L.removeAndDeleteRecord 3).1
    L2.size = 2 ∧ L2.liveKeys = [1, 2] ∧ L2.sortedKeys ∧
    L2.keyIndex 3 = L2.size ∧
    L2.insert 3 99 = (L2, 2) := by
  decide

/-! ### Claim C9 -/

/-- C9: insert-then-lookup fails for the zero key on an empty tree.  The
tree is empty, so per the source Insert(0, 99) takes the StartNewTree
branch and returns true; but the leaf Insert inside StartNewTree compares
the zeroed slot at index 0 = size of the freshly reset page with key 0,
wrongly reports a duplicate and stores nothing, so the immediately
following GetValue(0) returns false and appends nothing to the result
vector. -/
theorem insert_then_getValue_misses_zero_key :
    let t : BPlusTree := ⟨[], INVALID_PAGE_ID, 0, 3⟩
    t.isEmpty = true ∧
    (t.insertOnEmptyTree 0 99).2 = true ∧
    (t.insertOnEmptyTree 0 99).1.getValue 0 [] = some (false, []) := by
  decide

end Bustub
